import Mathlib

/-!
Verification of the Phase-1 transport additions of the `tcp_transport`
component: ownership-aware registry teardown, chain walkers and the
declarative resource tracker.  Every definition is a shallow embedding of
the corresponding C function; theorems settle the specified properties.
-/

namespace EspTransport

/-- `esp_err_t` values used by the Phase-1 code.  `ESP_ERR n` stands for any
other concrete error code a layer callback may return. -/
inductive EspErr where
  | ESP_OK
  | ESP_FAIL
  | ESP_ERR_NO_MEM
  | ESP_ERR_INVALID_ARG
  | ESP_ERR (n : Nat)
deriving DecidableEq, Repr

/-- `esp_transport_ownership_t` from PHASE1_TRANSPORT_API_ADDITIONS.h. -/
inductive Ownership where
  | NONE
  | SHARED
  | EXCLUSIVE
deriving DecidableEq, Repr

-- ==================== CHAIN MODEL ====================

/-- The per-node data a chain walk inspects: an identity (`id`, standing for
the node's address, used to record which node a callback was invoked on),
the `scheme` label and the `_destroy` callback.  A callback is modelled by
the value it returns when invoked; `none` models a NULL `_destroy` pointer. -/
structure ChainNode where
  id : Nat
  scheme : Option String
  destroyRes : Option EspErr
deriving DecidableEq, Repr

/-- A non-null transport handle together with its `parent` pointers:
`base d` is a node with `parent == NULL`, `cons d p` a node whose `parent`
is the (non-null) chain `p`.  The spec's construction-time contract makes
the parent graph a finite simple path, which this type captures. -/
inductive Chain where
  | base : ChainNode → Chain
  | cons : ChainNode → Chain → Chain
deriving DecidableEq, Repr

/-- The nodes of a chain, from the given node toward the root. -/
def chainNodes : Chain → List ChainNode
  | .base d => [d]
  | .cons d p => d :: chainNodes p

/-- `esp_transport_chain_execute` from PHASE1_TRANSPORT_C_ADDITIONS.c
(lines 101-146), for a non-null handle and operation.  `op` gives the
result of the operation callback on each node.  Returns the `esp_err_t`
result together with the trace of node ids `op` was invoked on, in
invocation order.  The C locals `err`, `first_error` and the recursion on
`t->parent` are translated clause by clause. -/
def chainExecute (op : ChainNode → EspErr) (aggregate : Bool) : Chain → EspErr × List Nat
  | .base d =>
    -- err = op(t); no parent; return aggregate_errors ? err : first_error,
    -- and both equal op(t) here.
    (op d, [d.id])
  | .cons d p =>
    let err := op d
    if err ≠ .ESP_OK ∧ aggregate = false then
      -- first_error = err; return first_error (parent never visited)
      (err, [d.id])
    else
      let r := chainExecute op aggregate p
      let parentErr := r.1
      let firstError := if err ≠ .ESP_OK then err
                        else if parentErr ≠ .ESP_OK then parentErr else .ESP_OK
      let errOut := if parentErr ≠ .ESP_OK ∧ aggregate = true then parentErr else err
      ((if aggregate then errOut else firstError), d.id :: r.2)

/-- Result of a node's own `_destroy` callback: `ESP_OK` when the callback
pointer is NULL (the C code leaves `err = ESP_OK` in that case). -/
def dres (d : ChainNode) : EspErr := d.destroyRes.getD .ESP_OK

/-- Invocation record of a node's `_destroy`: the callback is invoked only
when the pointer is non-NULL. -/
def dcall (d : ChainNode) : List Nat := if d.destroyRes.isSome then [d.id] else []

/-- `esp_transport_destroy_chain` from PHASE1_TRANSPORT_C_ADDITIONS.c
(lines 171-206), for a non-null handle.  The parent is captured before the
node is freed, the node's own `_destroy` runs if present, and the walk
always continues into the parent; the first non-`ESP_OK` result is kept. -/
def destroyChain : Chain → EspErr × List Nat
  | .base d => (dres d, dcall d)
  | .cons d p =>
    let err := dres d
    let r := destroyChain p
    ((if r.1 ≠ .ESP_OK ∧ err = .ESP_OK then r.1 else err), dcall d ++ r.2)

-- Specification-side helpers used to state the chain theorems.

/-- The first non-`ESP_OK` value of a list of results, else `ESP_OK`. -/
def firstErr : List EspErr → EspErr
  | [] => .ESP_OK
  | e :: rest => if e ≠ .ESP_OK then e else firstErr rest

/-- The non-`ESP_OK` value closest to the end of a list of results (the
last one evaluated), else `ESP_OK`. -/
def lastErr : List EspErr → EspErr
  | [] => .ESP_OK
  | e :: rest => if lastErr rest ≠ .ESP_OK then lastErr rest else e

/-- The ids visited by a fail-fast walk: everything up to and including
the first failing node. -/
def ffTrace (op : ChainNode → EspErr) : List ChainNode → List Nat
  | [] => []
  | n :: rest => if op n ≠ .ESP_OK then [n.id] else n.id :: ffTrace op rest

-- ==================== REGISTRY / HEAP MODEL ====================

/-- `struct esp_transport_item_t` from PHASE1_TRANSPORT_INTERNAL_ADDITIONS.h.
Opaque pointers (`data`, `keep_alive_cfg`, `foundation`) and function-table
entries are modelled by their presence (`false`/`none` = NULL); the
`_destroy` callback additionally carries the value it returns when invoked
(`destroyRes`).  `parent` is a heap reference (node id), matching the C
pointer. -/
structure Node where
  port : Nat
  scheme : Option String
  data : Bool
  hasConnect : Bool
  hasRead : Bool
  hasWrite : Bool
  hasClose : Bool
  hasPollRead : Bool
  hasPollWrite : Bool
  hasDestroy : Bool
  destroyRes : EspErr
  hasConnectAsync : Bool
  hasParentTransfer : Bool
  hasGetSocket : Bool
  keepAliveCfg : Bool
  foundation : Bool
  ownership : Ownership
  parent : Option Nat
deriving DecidableEq, Repr

/-- The all-zero `esp_transport_item_t`, as produced by `calloc`. -/
def zeroNode : Node :=
  { port := 0, scheme := none, data := false, hasConnect := false
    hasRead := false, hasWrite := false, hasClose := false
    hasPollRead := false, hasPollWrite := false, hasDestroy := false
    destroyRes := .ESP_OK, hasConnectAsync := false
    hasParentTransfer := false, hasGetSocket := false
    keepAliveCfg := false, foundation := false
    ownership := .NONE, parent := none }

/-- `esp_transport_init` from PHASE1_TRANSPORT_C_ADDITIONS.c (lines
223-233): `calloc` a zeroed record, then set `ownership = EXCLUSIVE` and
`parent = NULL`.  `allocOk` models whether the `calloc` succeeds; on
failure `ESP_TRANSPORT_MEM_CHECK` makes the function return NULL (`none`). -/
def espTransportInit (allocOk : Bool) : Option Node :=
  if allocOk then
    some { zeroNode with ownership := .EXCLUSIVE, parent := none }
  else none

/-- The heap: allocated transport records addressed by node id.  A node id
plays the role of a C pointer; deallocation removes the id. -/
abbrev Heap := List (Nat × Node)

/-- Dereference a node pointer: `none` when the id is not allocated. -/
def hLookup : Heap → Nat → Option Node
  | [], _ => none
  | (j, n) :: rest, i => if j = i then some n else hLookup rest i

/-- In-place mutation of the record at `i` (no-op when `i` is absent). -/
def hUpdate : Heap → Nat → Node → Heap
  | [], _, _ => []
  | (j, m) :: rest, i, n =>
    if j = i then (j, n) :: hUpdate rest i n else (j, m) :: hUpdate rest i n

/-- `free` of the record at `i`. -/
def hRemove : Heap → Nat → Heap
  | [], _ => []
  | (j, m) :: rest, i =>
    if j = i then hRemove rest i else (j, m) :: hRemove rest i

/-- Modelled from the spec: `esp_transport_destroy` (the single-node
destroy of the upstream transport.c, which is not in the source tree; the
spec describes the registry cleanup path as invoking "only a single-node
destroy").  It invokes the node's own `_destroy` callback when present,
then frees the scheme label and the node record.  Returns the updated heap
and the trace of `_destroy` invocations. -/
def espTransportDestroy (h : Heap) (i : Nat) : Heap × List Nat :=
  match hLookup h i with
  | none => (h, [])
  | some n => (hRemove h i, if n.hasDestroy then [i] else [])

/-- `esp_transport_list_add_ex` from PHASE1_TRANSPORT_C_ADDITIONS.c (lines
22-45) on non-null handles.  `allocOk` models whether the `calloc` of the
scheme copy succeeds; on failure `t->scheme` has been assigned the NULL
`calloc` result and `ESP_ERR_NO_MEM` is returned, with `t->ownership`
already overwritten and the list untouched.  The registry value is the
ordered list of registered node ids (the entry's label lives in the node's
`scheme` field, as in the C).  A dangling `t` cannot occur in the C (the
pointer is assumed valid); it is modelled as an argument error. -/
def listAddEx (allocOk : Bool) (h : Heap) (reg : Option (List Nat))
    (t : Option Nat) (scheme : String) (ow : Ownership) :
    Heap × Option (List Nat) × EspErr :=
  match reg, t with
  | none, _ => (h, none, .ESP_ERR_INVALID_ARG)
  | some r, none => (h, some r, .ESP_ERR_INVALID_ARG)
  | some r, some i =>
    match hLookup h i with
    | none => (h, some r, .ESP_ERR_INVALID_ARG)
    | some n =>
      if allocOk then
        (hUpdate h i { n with ownership := ow, scheme := some scheme },
         some (r ++ [i]), .ESP_OK)
      else
        (hUpdate h i { n with ownership := ow, scheme := none },
         some r, .ESP_ERR_NO_MEM)

/-- The entry loop of `esp_transport_list_clean` from
PHASE1_TRANSPORT_C_ADDITIONS.c (lines 62-94): for an `EXCLUSIVE` entry,
destroy the node (single-node `esp_transport_destroy`); otherwise free
only the registry-owned scheme label (`item->scheme = NULL`).  Returns the
updated heap and the trace of `_destroy` invocations.  An unallocated
entry id cannot occur in the C; it is modelled as a skip. -/
def listCleanGo : Heap → List Nat → Heap × List Nat
  | h, [] => (h, [])
  | h, i :: rest =>
    match hLookup h i with
    | none => listCleanGo h rest
    | some n =>
      if n.ownership = .EXCLUSIVE then
        let d := espTransportDestroy h i
        let r := listCleanGo d.1 rest
        (r.1, d.2 ++ r.2)
      else
        listCleanGo (hUpdate h i { n with scheme := none }) rest

/-- `esp_transport_list_clean` (same lines): NULL handle is rejected,
otherwise the entry loop runs, the list is re-emptied (`STAILQ_INIT`) and
`ESP_OK` is returned.  Result: heap, destroy trace, new registry value,
`esp_err_t`. -/
def listClean (h : Heap) :
    Option (List Nat) → Heap × List Nat × Option (List Nat) × EspErr
  | none => (h, [], none, .ESP_ERR_INVALID_ARG)
  | some reg =>
    let r := listCleanGo h reg
    (r.1, r.2, some [], .ESP_OK)

/-- Modelled from the spec: `esp_transport_list_destroy` (not in the
source tree) is `clean()` followed by releasing the registry's own backing
storage, so the registry value itself is gone afterwards. -/
def listDestroy (h : Heap) (reg : Option (List Nat)) :
    Heap × List Nat × EspErr :=
  let r := listClean h reg
  (r.1, r.2.1, r.2.2.2)

-- ==================== RESOURCE TRACKER MODEL ====================

/-- One `transport_resource_t` slot.  `esp_transport_resources.h` is not in
the source tree (only its callers in PHASE1_WEBSOCKET_INTEGRATION.c are),
so the slot is modelled from the spec: `target` is the location's state
(`false` = empty, `true` = holding a live resource), `hasInit` whether an
`init` function is present, `initRes` the result that `init` returns when
invoked, and `inited` the `initialized` flag, true only between a
successful `init` (or manual mark) and the next `cleanup`.  `id` stands
for the slot's address and is used to record callback invocations.  The
sequence-terminating sentinel of the C is the end of the Lean list. -/
structure Slot where
  id : Nat
  hasInit : Bool
  initRes : EspErr
  inited : Bool
  target : Bool
deriving DecidableEq, Repr

/-- Modelled from the spec: `transport_resources_init` (§4.1, not in the
source tree).  Walks the slots in order; a slot with `initialized ==
false` and a present `init` function is initialized (on success the slot
is marked and the walk continues); on failure, `cleanup` is invoked on
every slot successfully initialized during this call, in reverse order,
and the failure is returned.  Other slots are skipped.  Returns the
result, the final slot states, and the trace of `cleanup` invocations
performed by the rollback, in invocation order. -/
def resourcesInit : List Slot → EspErr × List Slot × List Nat
  | [] => (.ESP_OK, [], [])
  | s :: rest =>
    if s.inited = false ∧ s.hasInit = true then
      if s.initRes = .ESP_OK then
        let r := resourcesInit rest
        if r.1 = .ESP_OK then
          (.ESP_OK, { s with inited := true, target := true } :: r.2.1, r.2.2)
        else
          -- rollback: this slot was initialized during this call and is
          -- cleaned up after every slot initialized later than it
          (r.1, { s with inited := false, target := false } :: r.2.1,
           r.2.2 ++ [s.id])
      else
        (s.initRes, s :: rest, [])
    else
      let r := resourcesInit rest
      (r.1, s :: r.2.1, r.2.2)

/-- Modelled from the spec: `transport_resources_cleanup` (§4.1, not in
the source tree).  Walks the slots in reverse order; for each slot with
`initialized == true` it invokes `cleanup`, clears `initialized` and
empties `target`.  Returns the final slot states and the trace of
`cleanup` invocations, in invocation order (reverse slot order). -/
def resourcesCleanup : List Slot → List Slot × List Nat
  | [] => ([], [])
  | s :: rest =>
    let r := resourcesCleanup rest
    if s.inited = true then
      ({ s with inited := false, target := false } :: r.1, r.2 ++ [s.id])
    else
      (s :: r.1, r.2)

/-- The count of currently-initialized slots. -/
def countInit (l : List Slot) : Nat := (l.filter (fun s => s.inited)).length

-- ==================== CHAIN LEMMAS ====================

theorem chainExecute_false_eq (op : ChainNode → EspErr) (c : Chain) :
    chainExecute op false c
      = (firstErr ((chainNodes c).map op), ffTrace op (chainNodes c)) := by
  induction c with
  | base d =>
    by_cases h : op d = .ESP_OK <;>
      simp [chainExecute, chainNodes, firstErr, ffTrace, h]
  | cons d p ih =>
    by_cases h : op d = .ESP_OK
    · simp only [chainExecute, chainNodes, List.map_cons, ih]
      rw [if_neg (by simp [h])]
      by_cases h2 : firstErr ((chainNodes p).map op) = .ESP_OK <;>
        simp [firstErr, ffTrace, h, h2]
    · simp [chainExecute, chainNodes, firstErr, ffTrace, h]

theorem chainExecute_true_eq (op : ChainNode → EspErr) (c : Chain) :
    chainExecute op true c
      = (lastErr ((chainNodes c).map op),
         (chainNodes c).map (fun n => n.id)) := by
  induction c with
  | base d =>
    by_cases h : op d = .ESP_OK <;>
      simp [chainExecute, chainNodes, lastErr, h]
  | cons d p ih =>
    simp only [chainExecute, chainNodes, List.map_cons, ih]
    rw [if_neg (by simp)]
    by_cases h2 : lastErr ((chainNodes p).map op) = .ESP_OK <;>
      simp [lastErr, h2]

theorem destroyChain_eq (c : Chain) :
    destroyChain c
      = (firstErr ((chainNodes c).map dres),
         ((chainNodes c).filter (fun n => n.destroyRes.isSome)).map
           (fun n => n.id)) := by
  induction c with
  | base d =>
    by_cases h : dres d = .ESP_OK <;>
      by_cases h2 : d.destroyRes.isSome <;>
        simp [destroyChain, chainNodes, firstErr, dcall, h, h2]
  | cons d p ih =>
    simp only [destroyChain, chainNodes, List.map_cons, ih]
    by_cases h : dres d = .ESP_OK
    · by_cases h2 : firstErr ((chainNodes p).map dres) = .ESP_OK <;>
        by_cases h3 : d.destroyRes.isSome <;>
          simp [firstErr, dcall, h, h2, h3]
    · by_cases h3 : d.destroyRes.isSome <;>
        simp [firstErr, dcall, h, h3]

theorem firstErr_ok_of_all (l : List EspErr) (h : ∀ e ∈ l, e = .ESP_OK) :
    firstErr l = .ESP_OK := by
  induction l with
  | nil => rfl
  | cons e rest ih =>
    have he : e = .ESP_OK := h e (by simp)
    simp only [firstErr, he, ne_eq, not_true_eq_false, if_false]
    exact ih (fun x hx => h x (by simp [hx]))

theorem firstErr_append_first (pre : List EspErr) (e0 : EspErr)
    (post : List EspErr) (hpre : ∀ e ∈ pre, e = .ESP_OK)
    (h0 : e0 ≠ .ESP_OK) :
    firstErr (pre ++ e0 :: post) = e0 := by
  induction pre with
  | nil => simp [firstErr, h0]
  | cons e rest ih =>
    have he : e = .ESP_OK := hpre e (by simp)
    simp only [List.cons_append, firstErr, he, ne_eq, not_true_eq_false,
      if_false]
    exact ih (fun x hx => hpre x (by simp [hx]))

theorem lastErr_ok_of_all (l : List EspErr) (h : ∀ e ∈ l, e = .ESP_OK) :
    lastErr l = .ESP_OK := by
  induction l with
  | nil => rfl
  | cons e rest ih =>
    have he : e = .ESP_OK := h e (by simp)
    have hr : lastErr rest = .ESP_OK := ih (fun x hx => h x (by simp [hx]))
    simp [lastErr, he, hr]

theorem lastErr_append_last (pre : List EspErr) (e0 : EspErr)
    (post : List EspErr) (h0 : e0 ≠ .ESP_OK)
    (hpost : ∀ e ∈ post, e = .ESP_OK) :
    lastErr (pre ++ e0 :: post) = e0 := by
  induction pre with
  | nil =>
    have hp : lastErr post = .ESP_OK := lastErr_ok_of_all post hpost
    simp [lastErr, hp]
  | cons e rest ih =>
    simp only [List.cons_append, lastErr, List.append_eq, ih, ne_eq, h0,
      not_false_eq_true, if_true]

theorem ffTrace_all_ok (op : ChainNode → EspErr) (l : List ChainNode)
    (h : ∀ n ∈ l, op n = .ESP_OK) :
    ffTrace op l = l.map (fun n => n.id) := by
  induction l with
  | nil => rfl
  | cons n rest ih =>
    have hn : op n = .ESP_OK := h n (by simp)
    simp only [ffTrace, hn, ne_eq, not_true_eq_false, if_false,
      List.map_cons]
    rw [ih (fun x hx => h x (by simp [hx]))]

theorem ffTrace_first_fail (op : ChainNode → EspErr) (pre : List ChainNode)
    (n0 : ChainNode) (post : List ChainNode)
    (hpre : ∀ m ∈ pre, op m = .ESP_OK) (h0 : op n0 ≠ .ESP_OK) :
    ffTrace op (pre ++ n0 :: post) = (pre ++ [n0]).map (fun n => n.id) := by
  induction pre with
  | nil => simp [ffTrace, h0]
  | cons m rest ih =>
    have hm : op m = .ESP_OK := hpre m (by simp)
    simp only [List.cons_append, ffTrace, List.append_eq, hm, ne_eq,
      not_true_eq_false, if_false, List.map_cons]
    rw [ih (fun x hx => hpre x (by simp [hx]))]

-- ==================== CLAIM THEOREMS: CHAIN ====================

/-- C3: for every non-null node and operation, `execute(node, op,
aggregateErrors=false)` applies `op` to nodes strictly in order from the
node toward the root of the parent chain, stops at the first node whose
`op` fails and returns that node's error; nodes beyond the failing node
are never passed to `op`, and if no node fails it returns success. -/
theorem chainExecute_failFast (c : Chain) (op : ChainNode → EspErr) :
    ((∀ m ∈ chainNodes c, op m = .ESP_OK) →
      chainExecute op false c
        = (.ESP_OK, (chainNodes c).map (fun n => n.id)))
    ∧ (∀ pre n post, chainNodes c = pre ++ n :: post →
        (∀ m ∈ pre, op m = .ESP_OK) → op n ≠ .ESP_OK →
        chainExecute op false c
          = (op n, (pre ++ [n]).map (fun m => m.id))) := by
  constructor
  · intro hall
    rw [chainExecute_false_eq]
    have h1 : firstErr ((chainNodes c).map op) = .ESP_OK := by
      apply firstErr_ok_of_all
      intro e he
      rcases List.mem_map.mp he with ⟨m, hm, rfl⟩
      exact hall m hm
    rw [h1, ffTrace_all_ok op (chainNodes c) hall]
  · intro pre n post hdec hpre hn
    rw [chainExecute_false_eq, hdec]
    have h1 : firstErr ((pre ++ n :: post).map op) = op n := by
      rw [List.map_append, List.map_cons]
      apply firstErr_append_first _ _ _ _ hn
      intro e he
      rcases List.mem_map.mp he with ⟨m, hm, rfl⟩
      exact hpre m hm
    rw [h1, ffTrace_first_fail op pre n post hpre hn]

/-- C3 witness: a three-node chain where the middle node fails: the walk
returns that node's error and never reaches the root node. -/
theorem chainExecute_failFast_witness :
    chainExecute (fun n => if n.id = 1 then .ESP_FAIL else .ESP_OK) false
        (.cons ⟨0, some "ws", some .ESP_OK⟩
          (.cons ⟨1, some "ssl", some .ESP_OK⟩
            (.base ⟨2, some "tcp", some .ESP_OK⟩)))
      = (.ESP_FAIL, [0, 1]) := by
  exact (chainExecute_failFast
      (.cons ⟨0, some "ws", some .ESP_OK⟩
        (.cons ⟨1, some "ssl", some .ESP_OK⟩
          (.base ⟨2, some "tcp", some .ESP_OK⟩)))
      (fun n => if n.id = 1 then .ESP_FAIL else .ESP_OK)).2
    [⟨0, some "ws", some .ESP_OK⟩] ⟨1, some "ssl", some .ESP_OK⟩
    [⟨2, some "tcp", some .ESP_OK⟩] rfl (by decide) (by decide)

/-- C4: for every non-null node and operation, `execute(node, op,
aggregateErrors=true)` applies `op` to every node in the parent chain
unconditionally, regardless of intermediate failures, and returns the
error of the failing node closest to the root of the chain (the last one
evaluated) if any node failed, else success. -/
theorem chainExecute_aggregate (c : Chain) (op : ChainNode → EspErr) :
    (chainExecute op true c).2 = (chainNodes c).map (fun n => n.id)
    ∧ ((∀ m ∈ chainNodes c, op m = .ESP_OK) →
        (chainExecute op true c).1 = .ESP_OK)
    ∧ (∀ pre n post, chainNodes c = pre ++ n :: post →
        op n ≠ .ESP_OK → (∀ m ∈ post, op m = .ESP_OK) →
        (chainExecute op true c).1 = op n) := by
  refine ⟨?_, ?_, ?_⟩
  · rw [chainExecute_true_eq]
  · intro hall
    rw [chainExecute_true_eq]
    apply lastErr_ok_of_all
    intro e he
    rcases List.mem_map.mp he with ⟨m, hm, rfl⟩
    exact hall m hm
  · intro pre n post hdec hn hpost
    rw [chainExecute_true_eq, hdec]
    simp only [List.map_append, List.map_cons]
    apply lastErr_append_last _ _ _ hn
    intro e he
    rcases List.mem_map.mp he with ⟨m, hm, rfl⟩
    exact hpost m hm

/-- C4 witness: a three-node chain where the outermost and the root node
both fail: every node is visited and the root's error (the last one
evaluated) is returned. -/
theorem chainExecute_aggregate_witness :
    (chainExecute
        (fun n => if n.id = 2 then .ESP_ERR 5
                  else if n.id = 0 then .ESP_ERR 3 else .ESP_OK) true
        (.cons ⟨0, some "ws", some .ESP_OK⟩
          (.cons ⟨1, some "ssl", some .ESP_OK⟩
            (.base ⟨2, some "tcp", some .ESP_OK⟩)))).1 = .ESP_ERR 5
    ∧ (chainExecute
        (fun n => if n.id = 2 then .ESP_ERR 5
                  else if n.id = 0 then .ESP_ERR 3 else .ESP_OK) true
        (.cons ⟨0, some "ws", some .ESP_OK⟩
          (.cons ⟨1, some "ssl", some .ESP_OK⟩
            (.base ⟨2, some "tcp", some .ESP_OK⟩)))).2 = [0, 1, 2] := by
  constructor
  · exact (chainExecute_aggregate
        (.cons ⟨0, some "ws", some .ESP_OK⟩
          (.cons ⟨1, some "ssl", some .ESP_OK⟩
            (.base ⟨2, some "tcp", some .ESP_OK⟩)))
        (fun n => if n.id = 2 then .ESP_ERR 5
                  else if n.id = 0 then .ESP_ERR 3 else .ESP_OK)).2.2
      [⟨0, some "ws", some .ESP_OK⟩, ⟨1, some "ssl", some .ESP_OK⟩]
      ⟨2, some "tcp", some .ESP_OK⟩ [] rfl (by decide) (by decide)
  · rw [(chainExecute_aggregate
        (.cons ⟨0, some "ws", some .ESP_OK⟩
          (.cons ⟨1, some "ssl", some .ESP_OK⟩
            (.base ⟨2, some "tcp", some .ESP_OK⟩)))
        (fun n => if n.id = 2 then .ESP_ERR 5
                  else if n.id = 0 then .ESP_ERR 3 else .ESP_OK)).1]
    rfl

/-- C2: for every non-empty parent chain (every `Chain` is non-empty),
`destroyChain` invokes every node's own `destroy` callback exactly once,
in chain order, even when an intermediate node's `destroy` returns an
error, and the top-level call returns the first error encountered anywhere
in the chain (not the last), or success if no node failed. -/
theorem destroyChain_full_walk_first_error (c : Chain) :
    (destroyChain c).2
      = ((chainNodes c).filter (fun n => n.destroyRes.isSome)).map
          (fun n => n.id)
    ∧ ((∀ m ∈ chainNodes c, dres m = .ESP_OK) →
        (destroyChain c).1 = .ESP_OK)
    ∧ (∀ pre n post, chainNodes c = pre ++ n :: post →
        (∀ m ∈ pre, dres m = .ESP_OK) → dres n ≠ .ESP_OK →
        (destroyChain c).1 = dres n) := by
  refine ⟨?_, ?_, ?_⟩
  · rw [destroyChain_eq]
  · intro hall
    rw [destroyChain_eq]
    apply firstErr_ok_of_all
    intro e he
    rcases List.mem_map.mp he with ⟨m, hm, rfl⟩
    exact hall m hm
  · intro pre n post hdec hpre hn
    rw [destroyChain_eq, hdec]
    simp only [List.map_append, List.map_cons]
    apply firstErr_append_first _ _ _ _ hn
    intro e he
    rcases List.mem_map.mp he with ⟨m, hm, rfl⟩
    exact hpre m hm

/-- C2 witness: a three-node chain whose first two destroy callbacks fail
with different errors: all three callbacks run and the first error is
returned. -/
theorem destroyChain_full_walk_first_error_witness :
    (destroyChain (.cons ⟨0, some "ws", some (.ESP_ERR 7)⟩
        (.cons ⟨1, some "ssl", some (.ESP_ERR 9)⟩
          (.base ⟨2, some "tcp", some .ESP_OK⟩)))).1 = .ESP_ERR 7
    ∧ (destroyChain (.cons ⟨0, some "ws", some (.ESP_ERR 7)⟩
        (.cons ⟨1, some "ssl", some (.ESP_ERR 9)⟩
          (.base ⟨2, some "tcp", some .ESP_OK⟩)))).2 = [0, 1, 2] := by
  constructor
  · exact (destroyChain_full_walk_first_error
        (.cons ⟨0, some "ws", some (.ESP_ERR 7)⟩
          (.cons ⟨1, some "ssl", some (.ESP_ERR 9)⟩
            (.base ⟨2, some "tcp", some .ESP_OK⟩)))).2.2
      [] ⟨0, some "ws", some (.ESP_ERR 7)⟩
      [⟨1, some "ssl", some (.ESP_ERR 9)⟩, ⟨2, some "tcp", some .ESP_OK⟩]
      rfl (by simp) (by decide)
  · rw [(destroyChain_full_walk_first_error
        (.cons ⟨0, some "ws", some (.ESP_ERR 7)⟩
          (.cons ⟨1, some "ssl", some (.ESP_ERR 9)⟩
            (.base ⟨2, some "tcp", some .ESP_OK⟩)))).1]
    rfl

-- ==================== HEAP LEMMAS ====================

theorem hLookup_hUpdate_self (h : Heap) (i : Nat) (n m : Node)
    (hl : hLookup h i = some m) : hLookup (hUpdate h i n) i = some n := by
  induction h with
  | nil => simp [hLookup] at hl
  | cons p rest ih =>
    obtain ⟨j, x⟩ := p
    by_cases hji : j = i
    · simp [hUpdate, hLookup, hji]
    · simp only [hLookup, hji, if_false] at hl
      simp [hUpdate, hLookup, hji, ih hl]

theorem hLookup_hUpdate_ne (h : Heap) (i j : Nat) (n : Node) (hij : j ≠ i) :
    hLookup (hUpdate h j n) i = hLookup h i := by
  induction h with
  | nil => rfl
  | cons p rest ih =>
    obtain ⟨k, x⟩ := p
    simp only [hUpdate]
    by_cases hkj : k = j
    · subst hkj
      rw [if_pos rfl]
      simp only [hLookup]
      rw [if_neg hij, if_neg hij]
      exact ih
    · rw [if_neg hkj]
      simp only [hLookup]
      by_cases hki : k = i
      · rw [if_pos hki, if_pos hki]
      · rw [if_neg hki, if_neg hki]
        exact ih

theorem hLookup_hUpdate_none (h : Heap) (i j : Nat) (n : Node)
    (hl : hLookup h i = none) : hLookup (hUpdate h j n) i = none := by
  by_cases hij : j = i
  · subst hij
    induction h with
    | nil => rfl
    | cons p rest ih =>
      obtain ⟨k, x⟩ := p
      by_cases hkj : k = j
      · simp [hLookup, hkj] at hl
      · simp only [hLookup, hkj, if_false] at hl
        simp [hUpdate, hLookup, hkj, ih hl]
  · rw [hLookup_hUpdate_ne h i j n hij]
    exact hl

theorem hLookup_hRemove_self (h : Heap) (i : Nat) :
    hLookup (hRemove h i) i = none := by
  induction h with
  | nil => rfl
  | cons p rest ih =>
    obtain ⟨k, x⟩ := p
    by_cases hki : k = i <;> simp [hRemove, hLookup, hki, ih]

theorem hLookup_hRemove_ne (h : Heap) (i j : Nat) (hij : j ≠ i) :
    hLookup (hRemove h j) i = hLookup h i := by
  induction h with
  | nil => rfl
  | cons p rest ih =>
    obtain ⟨k, x⟩ := p
    simp only [hRemove]
    by_cases hkj : k = j
    · subst hkj
      rw [if_pos rfl]
      simp only [hLookup]
      rw [if_neg hij]
      exact ih
    · rw [if_neg hkj]
      simp only [hLookup]
      by_cases hki : k = i
      · rw [if_pos hki, if_pos hki]
      · rw [if_neg hki, if_neg hki]
        exact ih

-- ==================== REGISTRY CLEAN LEMMAS ====================

theorem listCleanGo_lookup_none (reg : List Nat) :
    ∀ h i, hLookup h i = none →
      hLookup (listCleanGo h reg).1 i = none
      ∧ i ∉ (listCleanGo h reg).2 := by
  induction reg with
  | nil =>
    intro h i hl
    exact ⟨hl, by simp [listCleanGo]⟩
  | cons j rest ih =>
    intro h i hl
    cases hj : hLookup h j with
    | none =>
      simp only [listCleanGo, hj]
      exact ih h i hl
    | some m =>
      have hji : j ≠ i := by
        intro e
        subst e
        rw [hj] at hl
        cases hl
      by_cases how : m.ownership = .EXCLUSIVE
      · simp only [listCleanGo, hj, how, if_true, espTransportDestroy]
        have hl2 : hLookup (hRemove h j) i = none := by
          rw [hLookup_hRemove_ne h i j hji]; exact hl
        have hr := ih (hRemove h j) i hl2
        refine ⟨hr.1, ?_⟩
        simp only [List.mem_append, not_or]
        refine ⟨?_, hr.2⟩
        by_cases hd : m.hasDestroy <;> simp [hd, Ne.symm hji]
      · simp only [listCleanGo, hj, how, if_false]
        have hl2 : hLookup (hUpdate h j { m with scheme := none }) i = none := by
          rw [hLookup_hUpdate_ne h i j _ hji]; exact hl
        exact ih _ i hl2

theorem listCleanGo_owner_none (reg : List Nat) :
    ∀ h i n, hLookup h i = some n → n.ownership = .NONE →
      i ∉ (listCleanGo h reg).2
      ∧ (i ∈ reg →
          hLookup (listCleanGo h reg).1 i = some { n with scheme := none })
      ∧ (i ∉ reg → hLookup (listCleanGo h reg).1 i = some n) := by
  induction reg with
  | nil =>
    intro h i n hl _
    exact ⟨by simp [listCleanGo], by simp, fun _ => by simp [listCleanGo, hl]⟩
  | cons j rest ih =>
    intro h i n hl hown
    cases hj : hLookup h j with
    | none =>
      have hji : j ≠ i := by
        intro e
        subst e
        rw [hj] at hl
        cases hl
      simp only [listCleanGo, hj]
      obtain ⟨h1, h2, h3⟩ := ih h i n hl hown
      refine ⟨h1, ?_, ?_⟩
      · intro hm
        exact h2 (by rcases List.mem_cons.mp hm with e | hm2
                     · exact absurd e.symm hji
                     · exact hm2)
      · intro hm
        exact h3 (fun hm2 => hm (List.mem_cons_of_mem j hm2))
    | some m =>
      by_cases hji : j = i
      · subst hji
        rw [hj] at hl
        injection hl with hmn
        subst hmn
        have hnotex : ¬ m.ownership = .EXCLUSIVE := by
          rw [hown]
          intro e
          cases e
        simp only [listCleanGo, hj, hnotex, if_false]
        have hl2 : hLookup (hUpdate h j { m with scheme := none }) j
            = some { m with scheme := none } :=
          hLookup_hUpdate_self h j _ m hj
        obtain ⟨h1, h2, h3⟩ := ih _ j { m with scheme := none } hl2 hown
        refine ⟨h1, fun _ => ?_, fun habs => ?_⟩
        · by_cases hm : j ∈ rest
          · exact h2 hm
          · exact h3 hm
        · exact absurd (List.mem_cons_self j rest) habs
      · have hji2 : j ≠ i := hji
        by_cases how : m.ownership = .EXCLUSIVE
        · simp only [listCleanGo, hj, how, if_true, espTransportDestroy]
          have hl2 : hLookup (hRemove h j) i = some n := by
            rw [hLookup_hRemove_ne h i j hji2]
            exact hl
          obtain ⟨h1, h2, h3⟩ := ih (hRemove h j) i n hl2 hown
          refine ⟨?_, ?_, ?_⟩
          · simp only [List.mem_append, not_or]
            refine ⟨?_, h1⟩
            by_cases hd : m.hasDestroy <;> simp [hd, Ne.symm hji2]
          · intro hm
            exact h2 (by rcases List.mem_cons.mp hm with e | hm2
                         · exact absurd e.symm hji2
                         · exact hm2)
          · intro hm
            exact h3 (fun hm2 => hm (List.mem_cons_of_mem j hm2))
        · simp only [listCleanGo, hj, how, if_false]
          have hl2 : hLookup (hUpdate h j { m with scheme := none }) i
              = some n := by
            rw [hLookup_hUpdate_ne h i j _ hji2]
            exact hl
          obtain ⟨h1, h2, h3⟩ := ih _ i n hl2 hown
          refine ⟨h1, ?_, ?_⟩
          · intro hm
            exact h2 (by rcases List.mem_cons.mp hm with e | hm2
                         · exact absurd e.symm hji2
                         · exact hm2)
          · intro hm
            exact h3 (fun hm2 => hm (List.mem_cons_of_mem j hm2))

theorem listCleanGo_owner_exclusive (reg : List Nat) :
    ∀ h i n, hLookup h i = some n → n.ownership = .EXCLUSIVE → i ∈ reg →
      hLookup (listCleanGo h reg).1 i = none
      ∧ (n.hasDestroy = true → i ∈ (listCleanGo h reg).2) := by
  induction reg with
  | nil =>
    intro h i n _ _ hm
    simp at hm
  | cons j rest ih =>
    intro h i n hl hown hm
    by_cases hji : j = i
    · subst hji
      simp only [listCleanGo, hl, hown, espTransportDestroy, if_pos]
      refine ⟨?_, ?_⟩
      · exact (listCleanGo_lookup_none rest (hRemove h j) j
          (hLookup_hRemove_self h j)).1
      · intro hd
        simp [hd]
    · have hmem : i ∈ rest := by
        rcases List.mem_cons.mp hm with e | hm2
        · exact absurd e.symm hji
        · exact hm2
      cases hj : hLookup h j with
      | none =>
        simp only [listCleanGo, hj]
        exact ih h i n hl hown hmem
      | some m =>
        by_cases how : m.ownership = .EXCLUSIVE
        · simp only [listCleanGo, hj, how, if_true, espTransportDestroy]
          have hl2 : hLookup (hRemove h j) i = some n := by
            rw [hLookup_hRemove_ne h i j hji]
            exact hl
          obtain ⟨h1, h2⟩ := ih (hRemove h j) i n hl2 hown hmem
          refine ⟨h1, ?_⟩
          intro hd
          exact List.mem_append.mpr (Or.inr (h2 hd))
        · simp only [listCleanGo, hj, how, if_false]
          have hl2 : hLookup (hUpdate h j { m with scheme := none }) i
              = some n := by
            rw [hLookup_hUpdate_ne h i j _ hji]
            exact hl
          exact ih _ i n hl2 hown hmem

-- ==================== CLAIM THEOREMS: REGISTRY ====================

/-- C7: for every registry entry whose ownership tag is `NONE`, `clean()`
releases only the registry-owned scheme label of that entry and leaves the
node itself untouched: the node's destroy callback is not invoked and
every node field other than `scheme` is unchanged (the node survives with
the same record, `scheme` aside); for entries tagged `EXCLUSIVE`,
`clean()` tears down the owned node (its record is deallocated, its
destroy callback, when present, is invoked). -/
theorem listClean_ownership_frame (h : Heap) (reg : List Nat) (i : Nat)
    (n : Node) (hl : hLookup h i = some n) :
    (n.ownership = .NONE →
      i ∉ (listClean h (some reg)).2.1
      ∧ (i ∈ reg →
          hLookup (listClean h (some reg)).1 i = some { n with scheme := none })
      ∧ (i ∉ reg → hLookup (listClean h (some reg)).1 i = some n))
    ∧ (n.ownership = .EXCLUSIVE → i ∈ reg →
      hLookup (listClean h (some reg)).1 i = none
      ∧ (n.hasDestroy = true → i ∈ (listClean h (some reg)).2.1)) := by
  constructor
  · intro hown
    simpa only [listClean] using listCleanGo_owner_none reg h i n hl hown
  · intro hown hm
    simpa only [listClean] using
      listCleanGo_owner_exclusive reg h i n hl hown hm

/-- A `NONE`-tagged registered base node used by the C7 witness. -/
def wTcpNone : Node := { zeroNode with
  ownership := Ownership.NONE, scheme := some "_tcp", hasDestroy := true,
  port := 80 }

/-- An `EXCLUSIVE`-tagged registered top node used by the C7 witness. -/
def wWsExcl : Node := { zeroNode with
  ownership := Ownership.EXCLUSIVE, scheme := some "ws", hasDestroy := true,
  parent := some 0 }

/-- The two-entry heap and registry of the C7 witness. -/
def wHeap : Heap := [(0, wTcpNone), (1, wWsExcl)]

/-- C7 witness: a two-entry registry, node 0 tagged `NONE` and node 1
tagged `EXCLUSIVE`, both with a destroy callback: cleaning strips node 0's
scheme without invoking its callback, and deallocates node 1 invoking its
callback. -/
theorem listClean_ownership_frame_witness :
    (0 ∉ (listClean wHeap (some [0, 1])).2.1
      ∧ hLookup (listClean wHeap (some [0, 1])).1 0
          = some { wTcpNone with scheme := none })
    ∧ (hLookup (listClean wHeap (some [0, 1])).1 1 = none
      ∧ 1 ∈ (listClean wHeap (some [0, 1])).2.1) := by
  constructor
  · have h := (listClean_ownership_frame wHeap [0, 1] 0 wTcpNone rfl).1 rfl
    exact ⟨h.1, h.2.1 (by decide)⟩
  · have h := (listClean_ownership_frame wHeap [0, 1] 1 wWsExcl rfl).2 rfl
        (by decide)
    exact ⟨h.1, h.2 rfl⟩

/-- C9: for every non-null registry, `clean()` always returns `ESP_OK` and
leaves the registry with zero entries, whatever the entries' ownership
tags and whatever any node destroy callback returns (the heap, including
every node's `destroyRes`, is universally quantified and the result does
not depend on it). -/
theorem listClean_always_ok_empty (h : Heap) (reg : List Nat) :
    (listClean h (some reg)).2.2.1 = some []
    ∧ (listClean h (some reg)).2.2.2 = .ESP_OK := by
  simp [listClean]

/-- C8: when `esp_transport_list_add_ex` with non-null list and node fails
with `ESP_ERR_NO_MEM` because the scheme-label copy cannot be allocated,
the registry list is unchanged (the node is not appended), but the node's
ownership field has already been overwritten with the requested value —
the failed add is not atomic with respect to the node's state. -/
theorem listAddEx_noMem_not_atomic (h : Heap) (r : List Nat) (i : Nat)
    (n : Node) (s : String) (ow : Ownership) (hl : hLookup h i = some n) :
    (listAddEx false h (some r) (some i) s ow).2.1 = some r
    ∧ (listAddEx false h (some r) (some i) s ow).2.2 = .ESP_ERR_NO_MEM
    ∧ hLookup (listAddEx false h (some r) (some i) s ow).1 i
        = some { n with ownership := ow, scheme := none } := by
  refine ⟨?_, ?_, ?_⟩ <;>
    simp only [listAddEx, hl, Bool.false_eq_true, if_false]
  exact hLookup_hUpdate_self h i _ n hl

/-- C8 witness: adding a freshly initialized node under a failing scheme
allocation leaves the list empty, returns `ESP_ERR_NO_MEM`, and has
already retagged the node `NONE`. -/
theorem listAddEx_noMem_not_atomic_witness :
    (listAddEx false [(0, { zeroNode with ownership := .EXCLUSIVE })]
        (some []) (some 0) "_tcp" .NONE).2.1 = some []
    ∧ (listAddEx false [(0, { zeroNode with ownership := .EXCLUSIVE })]
        (some []) (some 0) "_tcp" .NONE).2.2 = .ESP_ERR_NO_MEM
    ∧ hLookup (listAddEx false [(0, { zeroNode with ownership := .EXCLUSIVE })]
        (some []) (some 0) "_tcp" .NONE).1 0
        = some { zeroNode with ownership := .NONE, scheme := none } :=
  listAddEx_noMem_not_atomic [(0, { zeroNode with ownership := .EXCLUSIVE })]
    [] 0 { zeroNode with ownership := .EXCLUSIVE } "_tcp" .NONE rfl

/-- C10: every node handle successfully returned by `esp_transport_init`
starts with ownership `EXCLUSIVE`, no parent and no scheme label; all
remaining fields (function table, context, keep-alive config, foundation,
port) are zero/absent, as `calloc` leaves them. -/
theorem espTransportInit_defaults (ok : Bool) (n : Node)
    (h : espTransportInit ok = some n) :
    n.ownership = .EXCLUSIVE ∧ n.parent = none ∧ n.scheme = none
    ∧ n.port = 0 ∧ n.data = false ∧ n.hasConnect = false
    ∧ n.hasRead = false ∧ n.hasWrite = false ∧ n.hasClose = false
    ∧ n.hasPollRead = false ∧ n.hasPollWrite = false
    ∧ n.hasDestroy = false ∧ n.hasConnectAsync = false
    ∧ n.hasParentTransfer = false ∧ n.hasGetSocket = false
    ∧ n.keepAliveCfg = false ∧ n.foundation = false := by
  cases ok with
  | false => simp [espTransportInit] at h
  | true =>
    simp only [espTransportInit, if_pos, Option.some.injEq] at h
    subst h
    simp [zeroNode]

/-- C10 witness: the successful allocation case, evaluated. -/
theorem espTransportInit_defaults_witness :
    (espTransportInit true
        = some { zeroNode with ownership := .EXCLUSIVE, parent := none })
    ∧ { zeroNode with
          ownership := Ownership.EXCLUSIVE, parent := none }.ownership
        = .EXCLUSIVE := by
  refine ⟨rfl, ?_⟩
  exact (espTransportInit_defaults true
    { zeroNode with ownership := .EXCLUSIVE, parent := none } rfl).1

-- ==================== C1 SCENARIO: ws → ssl → tcp ====================

/-- The `tcp` base node of the C1 chain: a fresh `esp_transport_init` node
with a destroy callback wired and no parent. -/
def c1Tcp : Node := { zeroNode with
  ownership := Ownership.EXCLUSIVE, hasDestroy := true }

/-- The `ssl` middle node: parent is `tcp` (id 0). -/
def c1Ssl : Node := { zeroNode with
  ownership := Ownership.EXCLUSIVE, hasDestroy := true, parent := some 0 }

/-- The `ws` top node: parent is `ssl` (id 1). -/
def c1Ws : Node := { zeroNode with
  ownership := Ownership.EXCLUSIVE, hasDestroy := true, parent := some 1 }

/-- The heap after constructing the chain (ids 0 = tcp, 1 = ssl, 2 = ws). -/
def c1Heap : Heap := [(0, c1Tcp), (1, c1Ssl), (2, c1Ws)]

/-- Register `tcp` with ownership `NONE`. -/
def c1Add1 : Heap × Option (List Nat) × EspErr :=
  listAddEx true c1Heap (some []) (some 0) "_tcp" .NONE

/-- Register `ssl` with ownership `NONE`. -/
def c1Add2 : Heap × Option (List Nat) × EspErr :=
  listAddEx true c1Add1.1 c1Add1.2.1 (some 1) "_ssl" .NONE

/-- Register `ws` with ownership `EXCLUSIVE`. -/
def c1Add3 : Heap × Option (List Nat) × EspErr :=
  listAddEx true c1Add2.1 c1Add2.2.1 (some 2) "wss" .EXCLUSIVE

/-- The registry's full teardown: `clean` followed by releasing the
registry storage.  Result: final heap, destroy-invocation trace, result. -/
def c1Teardown : Heap × List Nat × EspErr :=
  listDestroy c1Add3.1 c1Add3.2.1

/-- C1 (the code violates the claim): on the chain `ws → ssl → tcp` with
`tcp` and `ssl` registered `NONE` and `ws` registered `EXCLUSIVE`, the
registry's full teardown invokes only `ws`'s destroy callback — the trace
is `[2]` (just `ws`), not `[2, 1, 0]` (`ws`, `ssl`, `tcp`) — because
`esp_transport_list_clean` calls the single-node destroy on the
`EXCLUSIVE` entry instead of `esp_transport_destroy_chain`; `ssl` and
`tcp` are still allocated afterwards (they leak), and the call still
returns `ESP_OK`. -/
theorem c1_registry_teardown_single_destroy :
    c1Teardown.2.1 = [2]
    ∧ c1Teardown.2.1 ≠ [2, 1, 0]
    ∧ (hLookup c1Teardown.1 0).isSome = true
    ∧ (hLookup c1Teardown.1 1).isSome = true
    ∧ hLookup c1Teardown.1 2 = none
    ∧ c1Teardown.2.2 = .ESP_OK := by
  refine ⟨rfl, by decide, rfl, rfl, rfl, rfl⟩

-- ==================== CLAIM THEOREMS: RESOURCE TRACKER ====================

theorem countInit_eq_zero (l : List Slot) (h : ∀ s ∈ l, s.inited = false) :
    countInit l = 0 := by
  simp only [countInit, List.length_eq_zero, List.filter_eq_nil_iff]
  intro s hs
  simp [h s hs]

/-- C6: `cleanup` is idempotent (a second `cleanup` with no intervening
`init` yields the state of the first), a `cleanup` on a tracker with no
initialized slots is a no-op (state unchanged and no cleanup callback is
invoked), and the count of currently-initialized slots is 0 immediately
after every `cleanup`, which covers every alternating `init; cleanup`
sequence. -/
theorem resourcesCleanup_idempotent (l : List Slot) :
    (resourcesCleanup (resourcesCleanup l).1).1 = (resourcesCleanup l).1
    ∧ (countInit l = 0 → resourcesCleanup l = (l, []))
    ∧ countInit (resourcesCleanup l).1 = 0 := by
  induction l with
  | nil => exact ⟨rfl, fun _ => rfl, rfl⟩
  | cons s rest ih =>
    obtain ⟨ih1, ih2, ih3⟩ := ih
    by_cases hs : s.inited = true
    · refine ⟨?_, ?_, ?_⟩
      · simp [resourcesCleanup, hs, ih1]
      · intro hz
        exfalso
        simp [countInit, List.filter_cons, hs] at hz
      · simp only [resourcesCleanup, hs, if_true]
        simp [countInit, List.filter_cons]
        simpa [countInit] using ih3
    · have hs2 : s.inited = false := by
        cases hcase : s.inited
        · rfl
        · exact absurd hcase hs
      refine ⟨?_, ?_, ?_⟩
      · simp [resourcesCleanup, hs2, ih1]
      · intro hz
        have hz2 : countInit rest = 0 := by
          simpa [countInit, List.filter_cons, hs2] using hz
        have := ih2 hz2
        simp only [resourcesCleanup, hs2, Bool.false_eq_true, if_false, this]
      · simp only [resourcesCleanup, hs2, Bool.false_eq_true, if_false]
        simpa [countInit, List.filter_cons, hs2] using ih3

/-- C6 witness: on a tracker with one initialized slot, cleanup leaves
zero initialized slots and re-running it is the identity; on an
all-uninitialized tracker, cleanup is a no-op with no callback invoked. -/
theorem resourcesCleanup_idempotent_witness :
    countInit (resourcesCleanup
        [⟨0, true, .ESP_OK, true, true⟩, ⟨1, false, .ESP_OK, false, false⟩]).1
      = 0
    ∧ resourcesCleanup [(⟨1, false, .ESP_OK, false, false⟩ : Slot)]
        = ([⟨1, false, .ESP_OK, false, false⟩], []) := by
  constructor
  · exact (resourcesCleanup_idempotent
      [⟨0, true, .ESP_OK, true, true⟩, ⟨1, false, .ESP_OK, false, false⟩]).2.2
  · exact (resourcesCleanup_idempotent
      [⟨1, false, .ESP_OK, false, false⟩]).2.1 (by decide)

/-- C5: starting from a tracker with no initialized slot, if `init` fails
at slot `f` (index `k = pre.length`), every slot successfully initialized
during this call — exactly the slots before `f` that carry an `init`
function — is cleaned up, in reverse order, before the failure is
returned, and the total count of initialized slots after the failed call
is 0: `init` is all-or-nothing per call. -/
theorem resourcesInit_fail_head (f : Slot) (post : List Slot)
    (h1 : f.inited = false) (h2 : f.hasInit = true)
    (h3 : f.initRes ≠ .ESP_OK) :
    resourcesInit (f :: post) = (f.initRes, f :: post, []) := by
  simp [resourcesInit, h1, h2, h3]

theorem resourcesInit_ok_head_fail_tail (s : Slot) (rest : List Slot)
    (h1 : s.inited = false) (h2 : s.hasInit = true)
    (h3 : s.initRes = .ESP_OK) (h4 : (resourcesInit rest).1 ≠ .ESP_OK) :
    resourcesInit (s :: rest)
      = ((resourcesInit rest).1,
         { s with inited := false, target := false }
           :: (resourcesInit rest).2.1,
         (resourcesInit rest).2.2 ++ [s.id]) := by
  simp [resourcesInit, h1, h2, h3, h4]

theorem resourcesInit_skip_head (s : Slot) (rest : List Slot)
    (h : ¬ (s.inited = false ∧ s.hasInit = true)) :
    resourcesInit (s :: rest)
      = ((resourcesInit rest).1, s :: (resourcesInit rest).2.1,
         (resourcesInit rest).2.2) := by
  simp only [resourcesInit]
  rw [if_neg h]

theorem resourcesInit_rollback (pre post : List Slot) (f : Slot)
    (huninit : ∀ s ∈ pre ++ f :: post, s.inited = false)
    (hpre : ∀ s ∈ pre, s.hasInit = true → s.initRes = .ESP_OK)
    (hf : f.hasInit = true) (hfail : f.initRes ≠ .ESP_OK) :
    (resourcesInit (pre ++ f :: post)).1 = f.initRes
    ∧ (resourcesInit (pre ++ f :: post)).2.2
        = ((pre.filter (fun s => s.hasInit)).map (fun s => s.id)).reverse
    ∧ countInit (resourcesInit (pre ++ f :: post)).2.1 = 0 := by
  induction pre with
  | nil =>
    have hfu : f.inited = false := huninit f (by simp)
    rw [List.nil_append, resourcesInit_fail_head f post hfu hf hfail]
    exact ⟨rfl, by simp, countInit_eq_zero _ (by simpa using huninit)⟩
  | cons s pre ih =>
    have hsu : s.inited = false := huninit s (by simp)
    have htail : ∀ x ∈ pre ++ f :: post, x.inited = false := by
      intro x hx
      exact huninit x (by simp [hx])
    have hpretail : ∀ x ∈ pre, x.hasInit = true → x.initRes = .ESP_OK := by
      intro x hx
      exact hpre x (by simp [hx])
    obtain ⟨ih1, ih2, ih3⟩ := ih htail hpretail
    by_cases hsi : s.hasInit = true
    · have hsok : s.initRes = .ESP_OK := hpre s (by simp) hsi
      have hr1 : (resourcesInit (pre ++ f :: post)).1 ≠ .ESP_OK := by
        rw [ih1]
        exact hfail
      rw [List.cons_append,
        resourcesInit_ok_head_fail_tail s (pre ++ f :: post) hsu hsi hsok hr1]
      refine ⟨ih1, ?_, ?_⟩
      · rw [show ((resourcesInit (pre ++ f :: post)).1,
            { s with inited := false, target := false }
              :: (resourcesInit (pre ++ f :: post)).2.1,
            (resourcesInit (pre ++ f :: post)).2.2 ++ [s.id]).2.2
            = (resourcesInit (pre ++ f :: post)).2.2 ++ [s.id] from rfl,
          ih2]
        simp [List.filter_cons, hsi]
      · simpa [countInit, List.filter_cons] using ih3
    · have hcond : ¬ (s.inited = false ∧ s.hasInit = true) := by
        intro hc
        exact hsi hc.2
      rw [List.cons_append, resourcesInit_skip_head s (pre ++ f :: post) hcond]
      refine ⟨ih1, ?_, ?_⟩
      · have hsi2 : s.hasInit = false := by
          cases hcase : s.hasInit
          · rfl
          · exact absurd hcase hsi
        rw [show ((resourcesInit (pre ++ f :: post)).1,
            s :: (resourcesInit (pre ++ f :: post)).2.1,
            (resourcesInit (pre ++ f :: post)).2.2).2.2
            = (resourcesInit (pre ++ f :: post)).2.2 from rfl, ih2]
        simp [List.filter_cons, hsi2]
      · simpa [countInit, List.filter_cons, hsu] using ih3

/-- C5 witness: four slots, all uninitialized, where slot 0 has an `init`
that succeeds, slot 5 has none, slot 1 has an `init` failing with
`ESP_ERR_NO_MEM`, slot 2 comes after: the failure is returned, the
rollback cleans exactly slot 0, and no slot is left initialized. -/
theorem resourcesInit_rollback_witness :
    (resourcesInit
        [⟨0, true, .ESP_OK, false, false⟩, ⟨5, false, .ESP_OK, false, false⟩,
         ⟨1, true, .ESP_ERR_NO_MEM, false, false⟩,
         ⟨2, true, .ESP_OK, false, false⟩]).1 = .ESP_ERR_NO_MEM
    ∧ (resourcesInit
        [⟨0, true, .ESP_OK, false, false⟩, ⟨5, false, .ESP_OK, false, false⟩,
         ⟨1, true, .ESP_ERR_NO_MEM, false, false⟩,
         ⟨2, true, .ESP_OK, false, false⟩]).2.2 = [0]
    ∧ countInit (resourcesInit
        [⟨0, true, .ESP_OK, false, false⟩, ⟨5, false, .ESP_OK, false, false⟩,
         ⟨1, true, .ESP_ERR_NO_MEM, false, false⟩,
         ⟨2, true, .ESP_OK, false, false⟩]).2.1 = 0 :=
  resourcesInit_rollback
    [⟨0, true, .ESP_OK, false, false⟩, ⟨5, false, .ESP_OK, false, false⟩]
    [⟨2, true, .ESP_OK, false, false⟩] ⟨1, true, .ESP_ERR_NO_MEM, false, false⟩
    (by decide) (by decide) (by decide) (by decide)

end EspTransport
